import Mathlib

/-!
# Verification of the wds-metrics adoption-tracking pipeline

Shallow embedding of the version-resolution, change-detection and
adoption-metrics code of the `wds-metrics` repository
(`track_versions_multi_repo.py`, `track_component_versions.py`,
`analyze_adoption_patterns.py`), together with theorems settling the
frozen claims about its specification.

Modelling conventions:
* JSON documents (`package.json` contents, release tables) are modelled by
  the inductive `JValue`; Python truthiness and the dictionary operations
  used by the source (`in`, subscript, `.get`, `.items()`) are modelled
  with Python's error behaviour made explicit through `Except`.
* Timestamps are modelled as integers (seconds); `timedelta.days` is
  integer floor division by 86400 (`Int.fdiv`).
* Fetching a file via `git show` and `json.loads` is abstracted by
  `FetchResult`: the subprocess may fail, parsing may fail, or a parsed
  document is produced.
-/

namespace WdsMetrics

/-- A JSON value, as produced by Python's `json.loads`.  Numbers are
modelled as integers (the manifests and release tables handled by the
source contain no fractional numbers). -/
inductive JValue where
  | null
  | bool (b : Bool)
  | num (n : Int)
  | str (s : String)
  | arr (elems : List JValue)
  | obj (fields : List (String × JValue))

mutual

/-- Decidable structural equality on JSON values (Python `==`/`!=` on the
values `json.loads` produces). -/
def JValue.decEq : (a b : JValue) → Decidable (a = b)
  | .null, .null => isTrue rfl
  | .bool a, .bool b =>
    if h : a = b then isTrue (by rw [h]) else isFalse (fun he => h (JValue.bool.inj he))
  | .num a, .num b =>
    if h : a = b then isTrue (by rw [h]) else isFalse (fun he => h (JValue.num.inj he))
  | .str a, .str b =>
    if h : a = b then isTrue (by rw [h]) else isFalse (fun he => h (JValue.str.inj he))
  | .arr a, .arr b =>
    match JValue.decEqList a b with
    | isTrue h => isTrue (by rw [h])
    | isFalse h => isFalse (fun he => h (JValue.arr.inj he))
  | .obj a, .obj b =>
    match JValue.decEqFields a b with
    | isTrue h => isTrue (by rw [h])
    | isFalse h => isFalse (fun he => h (JValue.obj.inj he))
  | .null, .bool _ => isFalse nofun
  | .null, .num _ => isFalse nofun
  | .null, .str _ => isFalse nofun
  | .null, .arr _ => isFalse nofun
  | .null, .obj _ => isFalse nofun
  | .bool _, .null => isFalse nofun
  | .bool _, .num _ => isFalse nofun
  | .bool _, .str _ => isFalse nofun
  | .bool _, .arr _ => isFalse nofun
  | .bool _, .obj _ => isFalse nofun
  | .num _, .null => isFalse nofun
  | .num _, .bool _ => isFalse nofun
  | .num _, .str _ => isFalse nofun
  | .num _, .arr _ => isFalse nofun
  | .num _, .obj _ => isFalse nofun
  | .str _, .null => isFalse nofun
  | .str _, .bool _ => isFalse nofun
  | .str _, .num _ => isFalse nofun
  | .str _, .arr _ => isFalse nofun
  | .str _, .obj _ => isFalse nofun
  | .arr _, .null => isFalse nofun
  | .arr _, .bool _ => isFalse nofun
  | .arr _, .num _ => isFalse nofun
  | .arr _, .str _ => isFalse nofun
  | .arr _, .obj _ => isFalse nofun
  | .obj _, .null => isFalse nofun
  | .obj _, .bool _ => isFalse nofun
  | .obj _, .num _ => isFalse nofun
  | .obj _, .str _ => isFalse nofun
  | .obj _, .arr _ => isFalse nofun

/-- Decidable equality for lists of JSON values. -/
def JValue.decEqList : (a b : List JValue) → Decidable (a = b)
  | [], [] => isTrue rfl
  | [], _ :: _ => isFalse nofun
  | _ :: _, [] => isFalse nofun
  | a :: as, b :: bs =>
    match JValue.decEq a b with
    | isFalse h => isFalse (fun he => h (List.cons.inj he).1)
    | isTrue h1 =>
      match JValue.decEqList as bs with
      | isTrue h2 => isTrue (by rw [h1, h2])
      | isFalse h2 => isFalse (fun he => h2 (List.cons.inj he).2)

/-- Decidable equality for JSON object field lists. -/
def JValue.decEqFields : (a b : List (String × JValue)) → Decidable (a = b)
  | [], [] => isTrue rfl
  | [], _ :: _ => isFalse nofun
  | _ :: _, [] => isFalse nofun
  | (k1, v1) :: as, (k2, v2) :: bs =>
    if hk : k1 = k2 then
      match JValue.decEq v1 v2 with
      | isFalse h => isFalse (fun he => h (congrArg Prod.snd (List.cons.inj he).1))
      | isTrue h1 =>
        match JValue.decEqFields as bs with
        | isTrue h2 => isTrue (by rw [hk, h1, h2])
        | isFalse h2 => isFalse (fun he => h2 (List.cons.inj he).2)
    else isFalse (fun he => hk (congrArg Prod.fst (List.cons.inj he).1))

end

instance : DecidableEq JValue := JValue.decEq

/-- Python truthiness of a JSON value (`if not package_json: ...`):
`None`, `False`, `0`, `""`, `[]` and `{}` are falsy. -/
def JValue.truthy : JValue → Bool
  | .null => false
  | .bool b => b
  | .num n => n != 0
  | .str s => s != ""
  | .arr elems => !elems.isEmpty
  | .obj fields => !fields.isEmpty

/-- Truthiness of an optional value (Python variables that may hold `None`). -/
def truthyO : Option JValue → Bool
  | none => false
  | some v => v.truthy

/-- First-match lookup in a parsed JSON object's field list.  Objects
produced by `json.loads` have unique keys, so first match is dictionary
lookup. -/
def objGet (fields : List (String × JValue)) (key : String) : Option JValue :=
  (fields.find? (fun kv => kv.1 == key)).map (·.2)

/-- Python `key in value` for the shapes `json.loads` can produce.
Membership in a dict checks keys, in a list checks elements, in a string
checks substrings; on other values Python raises `TypeError`. -/
def pyContains (v : JValue) (key : String) : Except String Bool :=
  match v with
  | .obj fields => .ok (fields.any (fun kv => kv.1 == key))
  | .arr elems => .ok (elems.any (fun e => e == .str key))
  | .str s =>
    .ok ((List.range (s.toList.length + 1)).any
      (fun i => key.toList.isPrefixOf (s.toList.drop i)))
  | _ => .error "TypeError: argument not iterable"

/-- Python `value[key]` with a string key: dict lookup (`KeyError` when the
key is missing), `TypeError` on non-dicts. -/
def pySubscript (v : JValue) (key : String) : Except String JValue :=
  match v with
  | .obj fields =>
    match objGet fields key with
    | some w => .ok w
    | none => .error "KeyError"
  | _ => .error "TypeError: not subscriptable"

/-- Python `value.get(key)`: `None` when absent; `AttributeError` when the
receiver is not a dict. -/
def pyDictGet (v : JValue) (key : String) : Except String (Option JValue) :=
  match v with
  | .obj fields => .ok (objGet fields key)
  | _ => .error "AttributeError: no attribute get"

/-- Python dict assignment `m[k] = v`: replace in place when the key
exists, otherwise append (insertion order preserved). -/
def pyDictSet {α : Type} (m : List (String × α)) (k : String) (v : α) : List (String × α) :=
  if m.any (fun kv => kv.1 == k) then m.map (fun kv => if kv.1 == k then (k, v) else kv)
  else m ++ [(k, v)]

/-- Lookup in an insertion-ordered string-keyed dictionary. -/
def dictGetS {α : Type} (m : List (String × α)) (k : String) : Option α :=
  (m.find? (fun kv => kv.1 == k)).map (·.2)

/-- `version_str.lstrip('^~')`: drop every leading `^` or `~`. -/
def stripRange (s : String) : String :=
  String.mk (s.toList.dropWhile (fun c => c == '^' || c == '~'))

/-- Python `c in s` for a single-character needle (`">" in key`). -/
def strHasChar (s : String) (c : Char) : Bool :=
  s.toList.contains c

/-- Python `s.endswith(suf)`. -/
def strEndsWith (s suf : String) : Bool :=
  suf.toList.isSuffixOf s.toList

/-- Python `s.split(c)[0]`: the characters before the first occurrence of
`c` (the whole string when `c` does not occur). -/
def strBefore (c : Char) (s : String) : String :=
  String.mk (s.toList.takeWhile (fun x => x != c))

/-- Python `s[:n]`. -/
def strTake (s : String) (n : Nat) : String :=
  String.mk (s.toList.take n)

/-- Result of `git show <commit>:package.json` followed by `json.loads`:
the subprocess can fail, the output can fail to parse, or a document is
produced. -/
inductive FetchResult where
  | gitError (msg : String)
  | parseError (msg : String)
  | parsed (doc : JValue)
deriving DecidableEq

/-- `get_package_json_at_commit` (`track_versions_multi_repo.py` lines
61-73, identical in `track_component_versions.py` lines 24-36): both
`subprocess.CalledProcessError` and `json.JSONDecodeError` are caught and
become `None`. -/
def get_package_json_at_commit : FetchResult → Option JValue
  | .gitError _ => none
  | .parseError _ => none
  | .parsed doc => some doc

/-- The three constituent values extracted from a manifest
(`extract_component_versions`'s result dictionary): the direct dependency
entry, the direct pnpm override, and the `(parent, version)` transitive
overrides in insertion order. -/
structure Versions where
  dependency : Option JValue
  override : Option JValue
  transitive_overrides : List (String × JValue)
deriving DecidableEq

/-- `versions["dependency"]` after the `dependencies` check
(`track_versions_multi_repo.py` lines 84-85):
`if "dependencies" in package_json: versions["dependency"] =
package_json["dependencies"].get(self.package_name)`. -/
def depLookup (pkg : String) (pj : JValue) : Except String (Option JValue) :=
  match pyContains pj "dependencies" with
  | .error e => .error e
  | .ok false => .ok none
  | .ok true =>
    match pySubscript pj "dependencies" with
    | .error e => .error e
    | .ok d => pyDictGet d pkg

/-- `versions["dependency"]` after the `devDependencies` fallback
(`track_versions_multi_repo.py` lines 88-89): consulted only when the
`dependencies` result is falsy. -/
def depWithDev (pkg : String) (pj : JValue) : Except String (Option JValue) :=
  match depLookup pkg pj with
  | .error e => .error e
  | .ok dep =>
    if truthyO dep then .ok dep
    else
      match pyContains pj "devDependencies" with
      | .error e => .error e
      | .ok false => .ok dep
      | .ok true =>
        match pySubscript pj "devDependencies" with
        | .error e => .error e
        | .ok d => pyDictGet d pkg

/-- `package_json["pnpm"]["overrides"]` when
`"pnpm" in package_json and "overrides" in package_json["pnpm"]`
(`track_versions_multi_repo.py` line 92), `none` otherwise. -/
def overridesLookup (pj : JValue) : Except String (Option JValue) :=
  match pyContains pj "pnpm" with
  | .error e => .error e
  | .ok false => .ok none
  | .ok true =>
    match pySubscript pj "pnpm" with
    | .error e => .error e
    | .ok p =>
      match pyContains p "overrides" with
      | .error e => .error e
      | .ok false => .ok none
      | .ok true =>
        match pySubscript p "overrides" with
        | .error e => .error e
        | .ok ov => .ok (some ov)

/-- The transitive-override scan (`track_versions_multi_repo.py` lines
99-105): keys containing `>` and ending with `>{package_name}`, mapped to
`(key.split(">")[0], value)`, in insertion order. -/
def transitiveEntries (pkg : String) (fields : List (String × JValue)) :
    List (String × JValue) :=
  (fields.filter (fun kv => strHasChar kv.1 '>' && strEndsWith kv.1 (">" ++ pkg))).map
    (fun kv => (strBefore '>' kv.1, kv.2))

/-- `extract_component_versions` (`track_versions_multi_repo.py` lines
75-107, identical in `track_component_versions.py` lines 38-70).  Python
exceptions raised on malformed document shapes (non-dict `dependencies`,
`devDependencies` or `overrides` values) are surfaced as `.error`; they
are not caught anywhere in the source. -/
def extract_component_versions (pkg : String) (pj : JValue) : Except String Versions :=
  match depWithDev pkg pj with
  | .error e => .error e
  | .ok dep =>
    match overridesLookup pj with
    | .error e => .error e
    | .ok none => .ok ⟨dep, none, []⟩
    | .ok (some ov) =>
      match pyDictGet ov pkg with
      | .error e => .error e
      | .ok direct =>
        match ov with
        | .obj fields => .ok ⟨dep, direct, transitiveEntries pkg fields⟩
        | _ => .error "AttributeError: no attribute items"

/-- Effective-version resolution (`track_versions_multi_repo.py` lines
163-169 and 211-215, `track_component_versions.py` lines 134-139):
direct override, else first transitive override, else dependency, with
Python truthiness deciding each fall-through. -/
def effectiveVersion (v : Versions) : Option JValue :=
  let e1 := v.override
  let e2 :=
    match truthyO e1, v.transitive_overrides with
    | false, kv :: _ => some kv.2
    | _, _ => e1
  if truthyO e2 then e2 else v.dependency

/-- `get_version_at_commit` (`analyze_adoption_patterns.py` lines
137-172).  The direct dependency entry is consulted first; pnpm overrides
are consulted only when it is falsy, and `devDependencies` never.
`subprocess.CalledProcessError` and `json.JSONDecodeError` are caught
(`.ok none`), other exceptions propagate (`.error`). -/
def get_version_at_commit (pkg : String) : FetchResult → Except String (Option JValue)
  | .gitError _ => .ok none
  | .parseError _ => .ok none
  | .parsed pj =>
    match depLookup pkg pj with
    | .error e => .error e
    | .ok version =>
      if truthyO version then .ok version
      else
        match pyContains pj "pnpm" with
        | .error e => .error e
        | .ok false => .ok version
        | .ok true =>
          match pySubscript pj "pnpm" with
          | .error e => .error e
          | .ok p =>
            match pyContains p "overrides" with
            | .error e => .error e
            | .ok false => .ok version
            | .ok true =>
              match pySubscript p "overrides" with
              | .error e => .error e
              | .ok ov =>
                match pyDictGet ov pkg with
                | .error e => .error e
                | .ok v2 =>
                  if truthyO v2 then .ok v2
                  else
                    match ov with
                    | .obj fields =>
                      match fields.find?
                          (fun kv => strHasChar kv.1 '>' && strEndsWith kv.1 (">" ++ pkg)) with
                      | some kv => .ok (some kv.2)
                      | none => .ok v2
                    | _ => .error "AttributeError: no attribute items"

/-- Commit metadata (`get_commit_info`), with the timestamp already
parsed to an integer (seconds). -/
structure CommitInfo where
  hash : String
  date : Int
  author : String
  message : String
deriving DecidableEq

/-- One element of the commit walk: metadata plus the outcome of fetching
`package.json` at that commit. -/
structure CommitFetch where
  info : CommitInfo
  fetch : FetchResult
deriving DecidableEq

/-- A change record as built in `track_repo_version_changes`
(`track_versions_multi_repo.py` lines 187-198; the repository field is
added by the caller context and left out here, matching
`track_component_versions.py` lines 167-177). -/
structure ChangeRecord where
  commit : String
  date : Int
  author : String
  message : String
  dependency_version : Option JValue
  override_version : Option JValue
  transitive_overrides : List (String × JValue)
  effective_version : Option JValue
  previous_effective : Option JValue
deriving DecidableEq

/-- The `changed` test (`track_versions_multi_repo.py` lines 178-182,
`track_component_versions.py` lines 147-163): any of the three
constituent values differs from the previous snapshot. -/
def constituentsChanged (v last : Versions) : Bool :=
  v.dependency != last.dependency || v.override != last.override ||
    v.transitive_overrides != last.transitive_overrides

/-- Record construction at an emitting commit. -/
def mkChangeRecord (c : CommitInfo) (v : Versions) (eff lastEff : Option JValue) :
    ChangeRecord :=
  { commit := strTake c.hash 8, date := c.date, author := c.author,
    message := strTake c.message 80,
    dependency_version := v.dependency, override_version := v.override,
    transitive_overrides := v.transitive_overrides,
    effective_version := eff, previous_effective := lastEff }

/-- The change-detection loop shared by `track_repo_version_changes`
(`track_versions_multi_repo.py` lines 153-201) and
`track_version_changes` (`track_component_versions.py` lines 120-182):
commits whose manifest is absent, unparsable or falsy are skipped
(`if not package_json: continue`); otherwise the constituents are
extracted, a record is emitted when `changed and effective_version !=
last_effective`, and the snapshot always advances to the extracted
values.  Returns the records together with the final snapshot; an
uncaught Python exception from extraction is `.error`. -/
def trackLoop (pkg : String) : Versions → List CommitFetch →
    Except String (List ChangeRecord × Versions)
  | last, [] => .ok ([], last)
  | last, c :: rest =>
    match get_package_json_at_commit c.fetch with
    | none => trackLoop pkg last rest
    | some pj =>
      if pj.truthy = false then trackLoop pkg last rest
      else
        match extract_component_versions pkg pj with
        | .error e => .error e
        | .ok v =>
          let eff := effectiveVersion v
          let lastEff := effectiveVersion last
          match trackLoop pkg v rest with
          | .error e => .error e
          | .ok (recs, fin) =>
            if constituentsChanged v last && eff != lastEff then
              .ok (mkChangeRecord c.info v eff lastEff :: recs, fin)
            else .ok (recs, fin)

/-- The initial all-absent snapshot
(`last_versions = {"dependency": None, "override": None,
"transitive_overrides": []}`). -/
def initialVersions : Versions := ⟨none, none, []⟩

/-- `track_version_changes` / the per-repository change list: run the
loop from the initial absent snapshot. -/
def track_version_changes (pkg : String) (commits : List CommitFetch) :
    Except String (List ChangeRecord) :=
  match trackLoop pkg initialVersions commits with
  | .error e => .error e
  | .ok (recs, _) => .ok recs

instance {ε α : Type} [DecidableEq ε] [DecidableEq α] : DecidableEq (Except ε α) :=
  fun a b =>
    match a, b with
    | .ok x, .ok y =>
      if h : x = y then isTrue (by rw [h]) else isFalse (fun he => h (Except.ok.inj he))
    | .error x, .error y =>
      if h : x = y then isTrue (by rw [h]) else isFalse (fun he => h (Except.error.inj he))
    | .ok _, .error _ => isFalse nofun
    | .error _, .ok _ => isFalse nofun

/-- Input for one repository: its basename, the result of the
`git log ... -- package.json` history query, and the current
`package.json` on disk (`none` when the file does not exist). -/
structure RepoInput where
  name : String
  history : Except String (List CommitFetch)
  current : Option JValue
deriving DecidableEq

/-- Per-repository result bundle (`track_repo_version_changes`'s return
dictionaries, `track_versions_multi_repo.py` lines 218-236). -/
structure RepoResult where
  repository : String
  changes : List ChangeRecord
  total_changes : Nat
  current_version : Option JValue
  error : Option String
deriving DecidableEq

/-- The current-version lookup (`track_versions_multi_repo.py` lines
203-216): extract from the on-disk manifest and resolve with the same
precedence (lines 211-215 repeat the effective-version computation). -/
def currentVersionOf (pkg : String) (doc : JValue) : Except String (Option JValue) :=
  match extract_component_versions pkg doc with
  | .error e => .error e
  | .ok v => .ok (effectiveVersion v)

/-- `track_repo_version_changes` (`track_versions_multi_repo.py` lines
129-236): a failing history query (`subprocess.CalledProcessError`) is
caught and yields an error result with an empty change list; exceptions
from manifest extraction are not caught and propagate (`.error`). -/
def track_repo_version_changes (pkg : String) (r : RepoInput) :
    Except String RepoResult :=
  match r.history with
  | .error e =>
    .ok { repository := r.name, changes := [], total_changes := 0,
          current_version := none, error := some e }
  | .ok commits =>
    match trackLoop pkg initialVersions commits with
    | .error e => .error e
    | .ok (recs, _) =>
      match r.current with
      | none =>
        .ok { repository := r.name, changes := recs, total_changes := recs.length,
              current_version := none, error := none }
      | some doc =>
        match currentVersionOf pkg doc with
        | .error e => .error e
        | .ok cv =>
          .ok { repository := r.name, changes := recs, total_changes := recs.length,
                current_version := cv, error := none }

/-- The merge loop of `process_repositories`
(`track_versions_multi_repo.py` lines 482-503): each completed
repository's result is written into the shared mapping under
`result["repository"]`.  The argument order of the list is the order in
which results are collected — the repository list order in sequential
mode, an arbitrary completion order in parallel mode. -/
def processList (pkg : String) : List (String × RepoResult) → List RepoInput →
    Except String (List (String × RepoResult))
  | acc, [] => .ok acc
  | acc, r :: rest =>
    match track_repo_version_changes pkg r with
    | .error e => .error e
    | .ok res => processList pkg (pyDictSet acc res.repository res) rest

/-- `process_repositories` in sequential mode. -/
def process_repositories (pkg : String) (repos : List RepoInput) :
    Except String (List (String × RepoResult)) :=
  processList pkg [] repos

/-- One commit line of the adoption walk (`git log --format=%H|%ai`),
with the timestamp already parsed. -/
structure ACommit where
  hash : String
  date : Int
  fetch : FetchResult
deriving DecidableEq

/-- An adoption record (`analyze_adoption_patterns.py` lines 122-127):
the stripped version used for comparison against the release table, the
raw manifest string retained for display, the adoption date and the
abbreviated commit hash. -/
structure Adoption where
  version : String
  raw_version : String
  adoption_date : Int
  commit : String
deriving DecidableEq

/-- The adoption-extraction loop (`analyze_adoption_patterns.py` lines
97-128): a record is appended when the resolved value is truthy and
differs from `last_version` — compared RAW, before stripping — and
`last_version` advances only on append.  `version.lstrip` on a non-string
value raises (`.error`). -/
def adoptionsLoop (pkg : String) : Option JValue → List ACommit →
    Except String (List Adoption)
  | _, [] => .ok []
  | last, c :: rest =>
    match get_version_at_commit pkg c.fetch with
    | .error e => .error e
    | .ok version =>
      if truthyO version && version != last then
        match version with
        | some (.str s) =>
          match adoptionsLoop pkg version rest with
          | .error e => .error e
          | .ok recs =>
            .ok ({ version := stripRange s, raw_version := s,
                   adoption_date := c.date, commit := strTake c.hash 8 } :: recs)
        | _ => .error "AttributeError: no attribute lstrip"
      else adoptionsLoop pkg last rest

/-- `get_repo_adoptions` (`analyze_adoption_patterns.py` lines 73-135):
a failing history query is caught and yields an empty adoption list. -/
def get_repo_adoptions (pkg : String) (history : Except String (List ACommit)) :
    Except String (List Adoption) :=
  match history with
  | .error _ => .ok []
  | .ok commits => adoptionsLoop pkg none commits

/-- A release-table value (`analyze_adoption_patterns.py` lines 67-70):
release date plus the raw version string from the file. -/
structure ReleaseInfo where
  date : Int
  version : String
deriving DecidableEq

/-- One row of the externally supplied release file. -/
structure ReleaseEntry where
  version : String
  release_date : Int
deriving DecidableEq

/-- `load_releases` (`analyze_adoption_patterns.py` lines 58-71): keyed by
the stripped version, the raw version retained in the value. -/
def load_releases (entries : List ReleaseEntry) : List (String × ReleaseInfo) :=
  entries.foldl
    (fun m e => pyDictSet m (stripRange e.version) ⟨e.release_date, e.version⟩) []

/-- Character-list splitting on a separator, as Python `s.split(sep)` for
a one-character separator. -/
def splitChars (c : Char) : List Char → List (List Char)
  | [] => [[]]
  | x :: xs =>
    let r := splitChars c xs
    if x == c then [] :: r
    else
      match r with
      | h :: t => (x :: h) :: t
      | [] => [[x]]

/-- Python `s.split(c)` for a single-character separator. -/
def strSplit (c : Char) (s : String) : List String :=
  (splitChars c s.toList).map String.mk

/-- Python `int(s)` restricted to strings of decimal digits (the only
shape occurring in version components); any other string raises
`ValueError`, which `parse_version` turns into the `(0,0,0)` fallback. -/
def digitsToNat (s : String) : Option Nat :=
  let cs := s.toList
  if cs.isEmpty then none
  else if cs.all Char.isDigit then
    some (cs.foldl (fun n ch => 10 * n + (ch.toNat - 48)) 0)
  else none

/-- `parse_version` (`analyze_adoption_patterns.py` lines 249-255): the
first up-to-three dot-separated components as numbers, `(0,0,0)` when any
of them fails to parse.  Components are compared as Python tuples
(lexicographically, a shorter tuple preceding its extensions). -/
def parse_version (v : String) : List Nat :=
  let parts := (strSplit '.' v).take 3
  if parts.all (fun p => (digitsToNat p).isSome) then
    parts.map (fun p => (digitsToNat p).getD 0)
  else [0, 0, 0]

/-- Python tuple `<=` on numeric tuples. -/
def tupleLe : List Nat → List Nat → Bool
  | [], _ => true
  | _ :: _, [] => false
  | a :: as, b :: bs => if a < b then true else if b < a then false else tupleLe as bs

/-- Insert into a sorted list, after all elements `y` with `le y x`
(keeps ties in arrival order). -/
def insertLe {α : Type} (le : α → α → Bool) (x : α) : List α → List α
  | [] => [x]
  | y :: ys => if le y x then y :: insertLe le x ys else x :: y :: ys

/-- Python's stable `sorted`: insert the elements left to right, each
going after any earlier element it ties with. -/
def stableSort {α : Type} (le : α → α → Bool) (l : List α) : List α :=
  l.foldl (fun acc x => insertLe le x acc) []

/-- `sorted(self.releases.keys(), key=lambda v: self.parse_version(v))`
(`analyze_adoption_patterns.py` line 240): stable sort of the keys by
parsed triple. -/
def sortedVersionKeys (releases : List (String × ReleaseInfo)) : List String :=
  stableSort (fun a b => tupleLe (parse_version a) (parse_version b)) (releases.map (·.1))

/-- `count_versions_between` (`analyze_adoption_patterns.py` lines
237-247): absolute index distance minus one in the sorted key list; `0`
when either `list.index` raises `ValueError`. -/
def count_versions_between (releases : List (String × ReleaseInfo))
    (version1 version2 : String) : Int :=
  let all_versions := sortedVersionKeys releases
  match all_versions.findIdx? (· == version1), all_versions.findIdx? (· == version2) with
  | some idx1, some idx2 => (Int.natAbs ((idx2 : Int) - (idx1 : Int)) : Int) - 1
  | _, _ => 0

/-- `timedelta.days` of the difference of two timestamps in seconds:
floor division by 86400. -/
def tdDays (a b : Int) : Int := Int.fdiv (a - b) 86400

/-- A per-version entry of `repo_metrics['versions']`
(`analyze_adoption_patterns.py` lines 196-216): skip and interval fields
are present only for records with a predecessor (`i > 0`). -/
structure VersionInfo where
  version : String
  release_date : Int
  adoption_date : Int
  lag_days : Int
  commit : String
  versions_skipped : Option Int
  days_since_last_update : Option Int
deriving DecidableEq

/-- `statistics.mean` over a nonempty integer list, as an exact rational. -/
def meanQ (l : List Int) : Rat :=
  ((l.foldl (· + ·) 0 : Int) : Rat) / (l.length : Rat)

/-- `statistics.median` over a nonempty integer list. -/
def medianQ (l : List Int) : Rat :=
  let s := stableSort (fun a b => decide (a ≤ b)) l
  let n := s.length
  if n % 2 = 1 then ((s.getD (n / 2) 0 : Int) : Rat)
  else (((s.getD (n / 2 - 1) 0 + s.getD (n / 2) 0 : Int) : Rat)) / 2

/-- Python `min` over a nonempty list. -/
def minList : List Int → Option Int
  | [] => none
  | x :: xs => some (xs.foldl min x)

/-- Python `max` over a nonempty list. -/
def maxList : List Int → Option Int
  | [] => none
  | x :: xs => some (xs.foldl max x)

/-- `calculate_adoption_metrics`' per-repository accumulation loop
(`analyze_adoption_patterns.py` lines 187-218), with the previous
adoption record (`adoptions[i-1]`, regardless of whether it was a known
release) threaded explicitly.  Returns the per-version entries and the
`adoption_lags`, `skip_counts` and `update_intervals` lists. -/
def metricsLoop (releases : List (String × ReleaseInfo)) :
    Option Adoption → List Adoption →
    List VersionInfo × List Int × List Int × List Int
  | _, [] => ([], [], [], [])
  | prev, a :: rest =>
    let r := metricsLoop releases (some a) rest
    match dictGetS releases a.version with
    | none => r
    | some ri =>
      let lag := tdDays a.adoption_date ri.date
      match prev with
      | none =>
        ({ version := a.version, release_date := ri.date,
           adoption_date := a.adoption_date, lag_days := lag, commit := a.commit,
           versions_skipped := none, days_since_last_update := none } :: r.1,
         lag :: r.2.1, r.2.2.1, r.2.2.2)
      | some p =>
        let sk := count_versions_between releases p.version a.version
        let iv := tdDays a.adoption_date p.adoption_date
        ({ version := a.version, release_date := ri.date,
           adoption_date := a.adoption_date, lag_days := lag, commit := a.commit,
           versions_skipped := some sk, days_since_last_update := some iv } :: r.1,
         lag :: r.2.1, sk :: r.2.2.1, iv :: r.2.2.2)

/-- `repo_metrics` for one repository (`analyze_adoption_patterns.py`
lines 179-233): aggregate statistics are present only when the underlying
list is nonempty (the `if repo_metrics[...]:` guards). -/
structure RepoMetrics where
  total_updates : Nat
  versions : List VersionInfo
  adoption_lags : List Int
  skip_counts : List Int
  update_intervals : List Int
  avg_lag_days : Option Rat
  median_lag_days : Option Rat
  min_lag_days : Option Int
  max_lag_days : Option Int
  avg_versions_skipped : Option Rat
  avg_update_interval : Option Rat
deriving DecidableEq

/-- `calculate_adoption_metrics` restricted to a single repository's
adoption list (`analyze_adoption_patterns.py` lines 174-235). -/
def calculate_adoption_metrics (releases : List (String × ReleaseInfo))
    (adoptions : List Adoption) : RepoMetrics :=
  let r := metricsLoop releases none adoptions
  { total_updates := adoptions.length
    versions := r.1
    adoption_lags := r.2.1
    skip_counts := r.2.2.1
    update_intervals := r.2.2.2
    avg_lag_days := if r.2.1.isEmpty then none else some (meanQ r.2.1)
    median_lag_days := if r.2.1.isEmpty then none else some (medianQ r.2.1)
    min_lag_days := minList r.2.1
    max_lag_days := maxList r.2.1
    avg_versions_skipped := if r.2.2.1.isEmpty then none else some (meanQ r.2.2.1)
    avg_update_interval := if r.2.2.2.isEmpty then none else some (meanQ r.2.2.2) }

/-- A `repo_adoptions` entry of the dashboard JSON
(`analyze_adoption_patterns.py` lines 268-284): `lag_days` is `None`
(absent) when the version is not a known release. -/
structure DashAdoption where
  version : String
  raw_version : String
  adoption_date : Int
  commit : String
  lag_days : Option Int
deriving DecidableEq

/-- `generate_dashboard_data_json`'s per-adoption mapping
(`analyze_adoption_patterns.py` lines 270-280). -/
def dashboardAdoption (releases : List (String × ReleaseInfo)) (a : Adoption) :
    DashAdoption :=
  { version := a.version, raw_version := a.raw_version,
    adoption_date := a.adoption_date, commit := a.commit,
    lag_days := (dictGetS releases a.version).map (fun ri => tdDays a.adoption_date ri.date) }

/-! ## Concrete fixtures used by the claim theorems -/

/-- The tracked package name used throughout the source. -/
def pkgName : String := "@transferwise/components"

/-- A manifest with only a direct dependency entry. -/
def depManifest (v : String) : JValue :=
  .obj [("dependencies", .obj [(pkgName, .str v)])]

/-- A manifest with only a direct pnpm override. -/
def ovManifest (v : String) : JValue :=
  .obj [("pnpm", .obj [("overrides", .obj [(pkgName, .str v)])])]

/-- A manifest with a direct dependency `1.0.0` and a direct pnpm
override `2.0.0` for the tracked package. -/
def bothManifest : JValue :=
  .obj [("dependencies", .obj [(pkgName, .str "1.0.0")]),
        ("pnpm", .obj [("overrides", .obj [(pkgName, .str "2.0.0")])])]

/-- A one-entry release table. -/
def relsOne : List (String × ReleaseInfo) := [("1.0.0", ⟨0, "1.0.0"⟩)]

/-- The spec's four-release example table, in sorted order. -/
def relsFour : List (String × ReleaseInfo) :=
  [("1.0.0", ⟨0, "1.0.0"⟩), ("1.1.0", ⟨10, "1.1.0"⟩),
   ("1.2.0", ⟨20, "1.2.0"⟩), ("1.3.0", ⟨30, "1.3.0"⟩)]

/-! ## Helper lemmas -/

/-- The `adoption_lags` component of the metrics loop collects exactly
the known-release records' day lags, in order. -/
theorem metricsLoop_lags (rels : List (String × ReleaseInfo)) :
    ∀ (ads : List Adoption) (prev : Option Adoption),
      (metricsLoop rels prev ads).2.1
        = ads.filterMap (fun a => (dictGetS rels a.version).map
            (fun ri => tdDays a.adoption_date ri.date))
  | [], _ => rfl
  | a :: rest, prev => by
    have ih := metricsLoop_lags rels rest (some a)
    simp only [metricsLoop, List.filterMap_cons]
    cases hr : dictGetS rels a.version with
    | none => simpa [hr] using ih
    | some ri => cases prev <;> simp [hr, ih]

/-- Each per-version entry's `lag_days` is the corresponding entry of
`adoption_lags`. -/
theorem metricsLoop_versions_lag (rels : List (String × ReleaseInfo)) :
    ∀ (ads : List Adoption) (prev : Option Adoption),
      (metricsLoop rels prev ads).1.map (fun vi => vi.lag_days)
        = (metricsLoop rels prev ads).2.1
  | [], _ => rfl
  | a :: rest, prev => by
    have ih := metricsLoop_versions_lag rels rest (some a)
    simp only [metricsLoop]
    cases hr : dictGetS rels a.version with
    | none => simpa [hr] using ih
    | some ri => cases prev <;> simp [hr, ih]

/-! ## Claim theorems -/

/-- C3: for every adoption record, `lag_days` is defined and equals the
whole-day difference between adoption date and the release date of the
adopted version exactly when the version is a known release; for unknown
versions the lag is absent (the record appears in neither the per-version
list nor `adoption_lags`) and contributes nothing to the mean, median,
min and max lag statistics, which are computed from `adoption_lags`
alone; the dashboard JSON likewise emits `None` for unknown versions.
With release `4.2.0` dated day 0 and an adoption 14 days later, the lag
is 14. -/
theorem C3_lag_defined_iff_known_release :
    (∀ (rels : List (String × ReleaseInfo)) (ads : List Adoption),
      (calculate_adoption_metrics rels ads).adoption_lags
        = ads.filterMap (fun a => (dictGetS rels a.version).map
            (fun ri => tdDays a.adoption_date ri.date))
      ∧ (calculate_adoption_metrics rels ads).versions.map (fun vi => vi.lag_days)
          = (calculate_adoption_metrics rels ads).adoption_lags
      ∧ (calculate_adoption_metrics rels ads).avg_lag_days
          = (if (calculate_adoption_metrics rels ads).adoption_lags.isEmpty then none
             else some (meanQ (calculate_adoption_metrics rels ads).adoption_lags))
      ∧ (calculate_adoption_metrics rels ads).median_lag_days
          = (if (calculate_adoption_metrics rels ads).adoption_lags.isEmpty then none
             else some (medianQ (calculate_adoption_metrics rels ads).adoption_lags))
      ∧ (calculate_adoption_metrics rels ads).min_lag_days
          = minList (calculate_adoption_metrics rels ads).adoption_lags
      ∧ (calculate_adoption_metrics rels ads).max_lag_days
          = maxList (calculate_adoption_metrics rels ads).adoption_lags
      ∧ ∀ a : Adoption, (dashboardAdoption rels a).lag_days
          = (dictGetS rels a.version).map (fun ri => tdDays a.adoption_date ri.date))
    ∧ (calculate_adoption_metrics [("4.2.0", ⟨0, "4.2.0"⟩)]
        [⟨"4.2.0", "4.2.0", 14 * 86400, "abcd1234"⟩]).adoption_lags = [14]
    ∧ (calculate_adoption_metrics [("4.2.0", ⟨0, "4.2.0"⟩)]
        [⟨"9.9.9", "9.9.9", 14 * 86400, "abcd1234"⟩]).adoption_lags = []
    ∧ (calculate_adoption_metrics [("4.2.0", ⟨0, "4.2.0"⟩)]
        [⟨"9.9.9", "9.9.9", 14 * 86400, "abcd1234"⟩]).avg_lag_days = none := by
  refine ⟨fun rels ads => ⟨?_, ?_, rfl, rfl, rfl, rfl, fun a => rfl⟩, by decide, by decide, rfl⟩
  · exact metricsLoop_lags rels ads none
  · exact metricsLoop_versions_lag rels ads none

/-- Commit pair whose manifest version changes only by dropping the `^`
range prefix. -/
def caretEditCommits : List ACommit :=
  [⟨"aaaa1111bbbb", 86400, .parsed (depManifest "^1.0.0")⟩,
   ⟨"cccc2222dddd", 172800, .parsed (depManifest "1.0.0")⟩]

/-- The two adoption records the analyzer produces for
`caretEditCommits`: both carry stripped version `1.0.0`. -/
def caretEditAdoptions : List Adoption :=
  [⟨"1.0.0", "^1.0.0", 86400, "aaaa1111"⟩, ⟨"1.0.0", "1.0.0", 172800, "cccc2222"⟩]

/-- C10: a prefix-only manifest edit (`^1.0.0` → `1.0.0`) produces two
consecutive adoption records with the same normalized version (the loop
compares raw strings); when that version is a known release,
`count_versions_between` returns −1, which is stored as the second
record's `versions_skipped`, pushed onto `skip_counts` and included in
the skip-count average, so `versions_skipped` is not guaranteed
non-negative. -/
theorem C10_versions_skipped_can_be_negative :
    get_repo_adoptions pkgName (.ok caretEditCommits) = .ok caretEditAdoptions
    ∧ (calculate_adoption_metrics relsOne caretEditAdoptions).skip_counts = [-1]
    ∧ (calculate_adoption_metrics relsOne caretEditAdoptions).versions.map
        (fun vi => vi.versions_skipped) = [none, some (-1)]
    ∧ (calculate_adoption_metrics relsOne caretEditAdoptions).avg_versions_skipped
        = some (-1) := by
  refine ⟨rfl, by decide, by decide, ?_⟩
  have h : (calculate_adoption_metrics relsOne caretEditAdoptions).avg_versions_skipped
      = some (meanQ [-1]) := rfl
  rw [h]
  norm_num [meanQ]

/-- Lexicographic strict order on parsed version tuples (Python tuple
`<`). -/
def tupleLt (a b : List Nat) : Bool := tupleLe a b && !tupleLe b a

/-- The count the spec's words describe for `versions_skipped`: release
entries whose numeric (major, minor, patch) key lies strictly between the
keys of the two versions. -/
def specStrictlyBetweenCount (releases : List (String × ReleaseInfo))
    (v1 v2 : String) : Nat :=
  let k1 := parse_version v1
  let k2 := parse_version v2
  let lo := if tupleLe k1 k2 then k1 else k2
  let hi := if tupleLe k1 k2 then k2 else k1
  ((releases.map (·.1)).filter
    (fun r => tupleLt lo (parse_version r) && tupleLt (parse_version r) hi)).length

/-- Commit pair for the C2 counterexample: a `~`-prefix-only edit of
version `3.1.4`. -/
def tildeEditCommits : List ACommit :=
  [⟨"eeee3333ffff", 86400, .parsed (depManifest "~3.1.4")⟩,
   ⟨"gggg4444hhhh", 259200, .parsed (depManifest "3.1.4")⟩]

/-- One-entry release table containing `3.1.4`. -/
def relsPi : List (String × ReleaseInfo) := [("3.1.4", ⟨0, "3.1.4"⟩)]

/-- C2 fails as stated: two consecutive adoption records of one
repository can carry the same version (a `~`-prefix-only edit), and then
`versions_skipped` is −1 while the number of release entries strictly
between the two versions is 0, so the claimed equality between the two
characterizations does not hold at this input. -/
theorem C2_counterexample_equal_versions :
    get_repo_adoptions pkgName (.ok tildeEditCommits)
      = .ok [⟨"3.1.4", "~3.1.4", 86400, "eeee3333"⟩, ⟨"3.1.4", "3.1.4", 259200, "gggg4444"⟩]
    ∧ (calculate_adoption_metrics relsPi
        [⟨"3.1.4", "~3.1.4", 86400, "eeee3333"⟩, ⟨"3.1.4", "3.1.4", 259200, "gggg4444"⟩]).versions.map
          (fun vi => vi.versions_skipped) = [none, some (-1)]
    ∧ count_versions_between relsPi "3.1.4" "3.1.4" = -1
    ∧ specStrictlyBetweenCount relsPi "3.1.4" "3.1.4" = 0
    ∧ ((-1 : Int) ≠ (0 : Nat)) := by
  exact ⟨rfl, by decide, by decide, by decide, by decide⟩

/-- C2 amended: `versions_skipped` for consecutive records equals the
absolute difference of the two versions' indices in the
triple-sorted release key list minus one, independent of direction —
which is the number of releases strictly between them when the two
versions are distinct (as on the four-release example, where
`1.0.0 → 1.3.0` gives 2) but is −1 when consecutive records carry the
same version — and is 0 whenever either version is unknown to the
release table. -/
theorem C2_amended_skip_is_index_distance :
    (∀ (rels : List (String × ReleaseInfo)) (v1 v2 : String),
      count_versions_between rels v1 v2 = count_versions_between rels v2 v1)
    ∧ (∀ (rels : List (String × ReleaseInfo)) (v1 v2 : String),
        (sortedVersionKeys rels).findIdx? (· == v1) = none →
        count_versions_between rels v1 v2 = 0)
    ∧ (∀ (rels : List (String × ReleaseInfo)) (v1 v2 : String),
        (sortedVersionKeys rels).findIdx? (· == v2) = none →
        count_versions_between rels v1 v2 = 0)
    ∧ (∀ (rels : List (String × ReleaseInfo)) (v1 v2 : String) (i j : Nat),
        (sortedVersionKeys rels).findIdx? (· == v1) = some i →
        (sortedVersionKeys rels).findIdx? (· == v2) = some j →
        count_versions_between rels v1 v2 = (Int.natAbs ((j : Int) - (i : Int)) : Int) - 1)
    ∧ (∀ (rels : List (String × ReleaseInfo)) (v : String) (i : Nat),
        (sortedVersionKeys rels).findIdx? (· == v) = some i →
        count_versions_between rels v v = -1)
    ∧ count_versions_between relsFour "1.0.0" "1.3.0" = 2
    ∧ count_versions_between relsFour "1.3.0" "1.0.0" = 2
    ∧ specStrictlyBetweenCount relsFour "1.0.0" "1.3.0" = 2 := by
  refine ⟨?_, ?_, ?_, ?_, ?_, by decide, by decide, by decide⟩
  · intro rels v1 v2
    unfold count_versions_between
    cases h1 : (sortedVersionKeys rels).findIdx? (· == v1) <;>
      cases h2 : (sortedVersionKeys rels).findIdx? (· == v2) <;> simp [h1, h2]
    rw [abs_sub_comm]
  · intro rels v1 v2 h1
    unfold count_versions_between
    cases h2 : (sortedVersionKeys rels).findIdx? (· == v2) <;> simp [h1, h2]
  · intro rels v1 v2 h2
    unfold count_versions_between
    cases h1 : (sortedVersionKeys rels).findIdx? (· == v1) <;> simp [h1, h2]
  · intro rels v1 v2 i j h1 h2
    unfold count_versions_between
    simp [h1, h2]
  · intro rels v i h
    unfold count_versions_between
    simp [h]

/-- C2 witness: the amended characterization instantiated on the
four-release example table. -/
theorem C2_amended_witness :
    count_versions_between relsFour "1.0.0" "1.2.0"
      = (Int.natAbs (((2 : Nat) : Int) - ((0 : Nat) : Int)) : Int) - 1
    ∧ count_versions_between relsFour "1.1.0" "1.1.0" = -1
    ∧ count_versions_between relsFour "1.0.0" "7.7.7" = 0 := by
  refine ⟨?_, ?_, ?_⟩
  · exact C2_amended_skip_is_index_distance.2.2.2.1 relsFour "1.0.0" "1.2.0" 0 2
      (by decide) (by decide)
  · exact C2_amended_skip_is_index_distance.2.2.2.2.1 relsFour "1.1.0" 1 (by decide)
  · exact C2_amended_skip_is_index_distance.2.2.1 relsFour "1.0.0" "7.7.7" (by decide)

/-- Membership after a Python dict assignment: the element was already
present or is the inserted pair. -/
theorem pyDictSet_mem {α : Type} {m : List (String × α)} {k : String} {v : α}
    {p : String × α} (hp : p ∈ pyDictSet m k v) : p ∈ m ∨ p = (k, v) := by
  unfold pyDictSet at hp
  split at hp
  · rcases List.mem_map.mp hp with ⟨q, hqm, hq⟩
    by_cases hqk : q.1 == k
    · right
      rw [← hq, if_pos hqk]
    · left
      rwa [← hq, if_neg hqk]
  · rcases List.mem_append.mp hp with h | h
    · exact Or.inl h
    · right
      simpa using h

/-- Every entry the release loader accumulates is keyed by the stripped
form of the raw version it stores. -/
theorem load_releases_go_stripped :
    ∀ (entries : List ReleaseEntry) (acc : List (String × ReleaseInfo)),
      (∀ p ∈ acc, p.1 = stripRange p.2.version) →
      ∀ p ∈ entries.foldl
          (fun m e => pyDictSet m (stripRange e.version) ⟨e.release_date, e.version⟩) acc,
        p.1 = stripRange p.2.version
  | [], _, hacc => hacc
  | e :: rest, acc, hacc => by
    refine load_releases_go_stripped rest _ ?_
    intro p hp
    rcases pyDictSet_mem hp with h | h
    · exact hacc p h
    · rw [h]

/-- Every adoption record the loop emits stores the stripped version
alongside its raw form. -/
theorem adoptionsLoop_stripped (pkg : String) :
    ∀ (commits : List ACommit) (last : Option JValue) (recs : List Adoption),
      adoptionsLoop pkg last commits = .ok recs →
      ∀ r ∈ recs, r.version = stripRange r.raw_version
  | [], _, recs, h => by
    simp only [adoptionsLoop] at h
    cases h
    intro r hr
    cases hr
  | c :: rest, last, recs, h => by
    simp only [adoptionsLoop] at h
    cases hv : get_version_at_commit pkg c.fetch with
    | error e => rw [hv] at h; cases h
    | ok version =>
      rw [hv] at h
      dsimp only at h
      by_cases hc : (truthyO version && version != last) = true
      · rw [if_pos hc] at h
        cases version with
        | none => cases h
        | some jv =>
          cases jv with
          | null => cases h
          | bool b => cases h
          | num n => cases h
          | arr xs => cases h
          | obj fs => cases h
          | str s =>
            cases hr : adoptionsLoop pkg (some (.str s)) rest with
            | error e => rw [hr] at h; cases h
            | ok rs =>
              rw [hr] at h
              cases h
              intro r hmem
              rcases List.mem_cons.mp hmem with hm | hm
              · rw [hm]
              · exact adoptionsLoop_stripped pkg rest _ _ hr r hm
      · rw [if_neg hc] at h
        exact adoptionsLoop_stripped pkg rest _ _ h

/-- Commit pair whose manifest version changes only by dropping the `~`
range prefix from `2.5.0` (used by the C6 counterexample). -/
def prefixOnlyCommits : List ACommit :=
  [⟨"1111aaaa2222", 1000, .parsed (depManifest "~2.5.0")⟩,
   ⟨"3333bbbb4444", 2000, .parsed (depManifest "2.5.0")⟩]

/-- C6 fails as stated: two consecutive commits whose manifest versions
differ only in the leading range prefix have equal stripped values, yet
the adoption loop compares the raw strings and emits a second adoption
record. -/
theorem C6_counterexample_raw_comparison :
    stripRange "~2.5.0" = stripRange "2.5.0"
    ∧ "~2.5.0" ≠ "2.5.0"
    ∧ get_repo_adoptions pkgName (.ok prefixOnlyCommits)
        = .ok [⟨"2.5.0", "~2.5.0", 1000, "1111aaaa"⟩,
               ⟨"2.5.0", "2.5.0", 2000, "3333bbbb"⟩] := by
  exact ⟨by decide, by decide, rfl⟩

/-- C6 amended: stripping of the `^`/`~` range prefixes is applied when
values are stored — release-table keys are the stripped raw version, and
each adoption record stores the stripped version next to the raw one —
but comparison against the previous value in the adoption loop uses the
raw string, so a truthy string value that differs from the previous raw
value emits a new record even when only the prefix changed. -/
theorem C6_amended_strip_on_store_not_compare :
    (∀ (entries : List ReleaseEntry), ∀ p ∈ load_releases entries,
      p.1 = stripRange p.2.version)
    ∧ (∀ (pkg : String) (hist : Except String (List ACommit)) (recs : List Adoption),
        get_repo_adoptions pkg hist = .ok recs →
        ∀ r ∈ recs, r.version = stripRange r.raw_version)
    ∧ (∀ (pkg : String) (last : Option JValue) (c : ACommit) (rest : List ACommit)
        (s : String),
        get_version_at_commit pkg c.fetch = .ok (some (.str s)) →
        some (JValue.str s) ≠ last → s ≠ "" →
        adoptionsLoop pkg last (c :: rest)
          = (adoptionsLoop pkg (some (.str s)) rest).map
              (fun rs => (⟨stripRange s, s, c.date, strTake c.hash 8⟩ : Adoption) :: rs)) := by
  refine ⟨?_, ?_, ?_⟩
  · intro entries p hp
    exact load_releases_go_stripped entries [] (by intro p hp; cases hp) p hp
  · intro pkg hist recs h
    cases hist with
    | error e =>
      simp only [get_repo_adoptions] at h
      cases h
      intro r hr
      cases hr
    | ok commits => exact adoptionsLoop_stripped pkg commits none recs h
  · intro pkg last c rest s hv hne hs
    have hc : (truthyO (some (.str s)) && some (JValue.str s) != last) = true := by
      simp [truthyO, JValue.truthy, hs, hne]
    simp only [adoptionsLoop, hv]
    rw [if_pos hc]
    cases hr : adoptionsLoop pkg (some (.str s)) rest <;> simp [Except.map, hr]

/-- C6 witness: the amended facts instantiated on concrete inputs. -/
theorem C6_amended_witness :
    ("9.0.1", (⟨5, "^9.0.1"⟩ : ReleaseInfo)).1
      = stripRange ("9.0.1", (⟨5, "^9.0.1"⟩ : ReleaseInfo)).2.version
    ∧ (⟨"2.5.0", "~2.5.0", 1000, "1111aaaa"⟩ : Adoption).version
        = stripRange (⟨"2.5.0", "~2.5.0", 1000, "1111aaaa"⟩ : Adoption).raw_version
    ∧ adoptionsLoop pkgName none prefixOnlyCommits
        = (adoptionsLoop pkgName (some (.str "~2.5.0")) [⟨"3333bbbb4444", 2000,
            .parsed (depManifest "2.5.0")⟩]).map
            (fun rs => (⟨stripRange "~2.5.0", "~2.5.0", 1000, "1111aaaa"⟩ : Adoption) :: rs) := by
  refine ⟨?_, ?_, ?_⟩
  · exact C6_amended_strip_on_store_not_compare.1 [⟨"^9.0.1", 5⟩]
      ("9.0.1", ⟨5, "^9.0.1"⟩) (by decide)
  · exact C6_amended_strip_on_store_not_compare.2.1 pkgName (.ok prefixOnlyCommits)
      [⟨"2.5.0", "~2.5.0", 1000, "1111aaaa"⟩, ⟨"2.5.0", "2.5.0", 2000, "3333bbbb"⟩]
      rfl ⟨"2.5.0", "~2.5.0", 1000, "1111aaaa"⟩ (by simp)
  · exact C6_amended_strip_on_store_not_compare.2.2 pkgName none
      ⟨"1111aaaa2222", 1000, .parsed (depManifest "~2.5.0")⟩
      [⟨"3333bbbb4444", 2000, .parsed (depManifest "2.5.0")⟩]
      "~2.5.0" rfl (by decide) (by decide)

/-- Object lookup at a matching head field. -/
theorem objGet_cons_self (k : String) (v : JValue) (rest : List (String × JValue)) :
    objGet ((k, v) :: rest) k = some v := by
  simp [objGet]

/-- C1 fails as stated: on a manifest carrying both a direct dependency
entry (`1.0.0`) and a direct pnpm override (`2.0.0`), the tracker
resolvers return the override but the adoption analyzer's
`get_version_at_commit` checks the dependency entry first and returns
`1.0.0`, so the claimed precedence does not hold over every code path
that resolves an effective version. -/
theorem C1_counterexample_dependency_checked_first :
    (extract_component_versions pkgName bothManifest).map effectiveVersion
      = .ok (some (.str "2.0.0"))
    ∧ get_version_at_commit pkgName (.parsed bothManifest) = .ok (some (.str "1.0.0"))
    ∧ (JValue.str "1.0.0") ≠ (JValue.str "2.0.0") := by
  exact ⟨rfl, rfl, by decide⟩

/-- C1 amended: the claimed precedence — truthy direct override first,
else the first transitive override when its version is truthy, else the
dependency entry (`dependencies` first, then `devDependencies`) — holds
for the tracker resolvers built on `extract_component_versions`; the
adoption analyzer's `get_version_at_commit`, however, consults the
direct dependency entry first, so there a truthy dependency entry wins
regardless of any overrides, and `devDependencies` is never consulted. -/
theorem C1_amended_precedence :
    (∀ v : Versions, truthyO v.override = true → effectiveVersion v = v.override)
    ∧ (∀ (v : Versions) (p : String) (w : JValue) (rest : List (String × JValue)),
        truthyO v.override = false → v.transitive_overrides = (p, w) :: rest →
        w.truthy = true → effectiveVersion v = some w)
    ∧ (∀ v : Versions, truthyO v.override = false → v.transitive_overrides = [] →
        effectiveVersion v = v.dependency)
    ∧ (∀ (v : Versions) (p : String) (w : JValue) (rest : List (String × JValue)),
        truthyO v.override = false → v.transitive_overrides = (p, w) :: rest →
        w.truthy = false → effectiveVersion v = v.dependency)
    ∧ (∀ (pkg : String) (deps rest : List (String × JValue)) (x : JValue),
        objGet deps pkg = some x → x.truthy = true →
        get_version_at_commit pkg
          (.parsed (.obj (("dependencies", .obj deps) :: rest))) = .ok (some x)) := by
  refine ⟨?_, ?_, ?_, ?_, ?_⟩
  · intro v hT
    simp [effectiveVersion, hT]
  · intro v p w rest hF htr hw
    simp only [effectiveVersion, hF, htr]
    simp [truthyO, hw]
  · intro v hF htr
    simp [effectiveVersion, hF, htr]
  · intro v p w rest hF htr hw
    simp only [effectiveVersion, hF, htr]
    simp [truthyO, hw]
  · intro pkg deps rest x hx hT
    simp only [get_version_at_commit, depLookup, pyContains, pySubscript, pyDictGet,
      objGet_cons_self, List.any_cons, beq_self_eq_true, Bool.true_or, hx]
    simp [truthyO, hT]

/-- C1 witness: the amended precedence instantiated on concrete
manifests. -/
theorem C1_amended_precedence_witness :
    effectiveVersion ⟨some (.str "1.0.0"), some (.str "2.0.0"), []⟩ = some (.str "2.0.0")
    ∧ effectiveVersion ⟨some (.str "1.0.0"), none, [("pkgA", .str "3.0.0")]⟩
        = some (.str "3.0.0")
    ∧ effectiveVersion ⟨some (.str "1.0.0"), none, []⟩ = some (.str "1.0.0")
    ∧ effectiveVersion ⟨some (.str "1.0.0"), none, [("pkgA", .str "")]⟩
        = some (.str "1.0.0")
    ∧ get_version_at_commit pkgName (.parsed bothManifest) = .ok (some (.str "1.0.0")) := by
  refine ⟨?_, ?_, ?_, ?_, ?_⟩
  · exact C1_amended_precedence.1 ⟨some (.str "1.0.0"), some (.str "2.0.0"), []⟩ (by decide)
  · exact C1_amended_precedence.2.1 ⟨some (.str "1.0.0"), none, [("pkgA", .str "3.0.0")]⟩
      "pkgA" (.str "3.0.0") [] (by decide) rfl (by decide)
  · exact C1_amended_precedence.2.2.1 ⟨some (.str "1.0.0"), none, []⟩ (by decide) rfl
  · exact C1_amended_precedence.2.2.2.1 ⟨some (.str "1.0.0"), none, [("pkgA", .str "")]⟩
      "pkgA" (.str "") [] (by decide) rfl (by decide)
  · exact C1_amended_precedence.2.2.2.2 pkgName [(pkgName, .str "1.0.0")]
      [("pnpm", .obj [("overrides", .obj [(pkgName, .str "2.0.0")])])]
      (.str "1.0.0") (by decide) (by decide)

/-- A manifest document is well-shaped when each of the entries the
resolver subscripts — `dependencies`, `devDependencies`, `pnpm` and
`pnpm.overrides` — is a JSON object whenever it is present. -/
def WellShaped (fields : List (String × JValue)) : Prop :=
  (∀ v, objGet fields "dependencies" = some v → ∃ fs, v = JValue.obj fs)
  ∧ (∀ v, objGet fields "devDependencies" = some v → ∃ fs, v = JValue.obj fs)
  ∧ (∀ p, objGet fields "pnpm" = some p →
      ∃ pfs, p = JValue.obj pfs
        ∧ ∀ ov, objGet pfs "overrides" = some ov → ∃ ofs, ov = JValue.obj ofs)

/-- A truthy key membership yields a value for lookup. -/
theorem objGet_isSome_of_any {fields : List (String × JValue)} {k : String}
    (h : (fields.any (fun kv => kv.1 == k)) = true) : ∃ v, objGet fields k = some v := by
  unfold objGet
  rcases List.any_eq_true.mp h with ⟨kv, hkm, hk⟩
  have hs : (fields.find? (fun kv => kv.1 == k)).isSome :=
    List.find?_isSome.mpr ⟨kv, hkm, hk⟩
  rcases Option.isSome_iff_exists.mp hs with ⟨q, hq⟩
  exact ⟨q.2, by rw [hq]; rfl⟩

/-- The dependency lookup cannot raise on a well-shaped document. -/
theorem depLookup_ok (pkg : String) (fields : List (String × JValue))
    (hdep : ∀ v, objGet fields "dependencies" = some v → ∃ fs, v = JValue.obj fs) :
    ∃ r, depLookup pkg (.obj fields) = .ok r := by
  unfold depLookup pyContains
  dsimp only
  cases hany : fields.any (fun kv => kv.1 == "dependencies") with
  | false => exact ⟨none, rfl⟩
  | true =>
    rcases objGet_isSome_of_any hany with ⟨v, hv⟩
    rcases hdep v hv with ⟨fs, rfl⟩
    refine ⟨objGet fs pkg, ?_⟩
    simp [pySubscript, hv, pyDictGet]

/-- The dependency lookup with the `devDependencies` fallback cannot
raise on a well-shaped document. -/
theorem depWithDev_ok (pkg : String) (fields : List (String × JValue))
    (hdep : ∀ v, objGet fields "dependencies" = some v → ∃ fs, v = JValue.obj fs)
    (hdev : ∀ v, objGet fields "devDependencies" = some v → ∃ fs, v = JValue.obj fs) :
    ∃ r, depWithDev pkg (.obj fields) = .ok r := by
  rcases depLookup_ok pkg fields hdep with ⟨r, hr⟩
  unfold depWithDev
  rw [hr]
  dsimp only
  cases ht : truthyO r with
  | true => exact ⟨r, rfl⟩
  | false =>
    simp only [Bool.false_eq_true, if_false]
    unfold pyContains
    dsimp only
    cases hany : fields.any (fun kv => kv.1 == "devDependencies") with
    | false => exact ⟨r, rfl⟩
    | true =>
      rcases objGet_isSome_of_any hany with ⟨v, hv⟩
      rcases hdev v hv with ⟨fs, rfl⟩
      refine ⟨objGet fs pkg, ?_⟩
      simp [pySubscript, hv, pyDictGet]

/-- The overrides lookup cannot raise on a well-shaped document, and any
overrides value it returns is an object. -/
theorem overridesLookup_ok (fields : List (String × JValue))
    (hp : ∀ p, objGet fields "pnpm" = some p →
      ∃ pfs, p = JValue.obj pfs
        ∧ ∀ ov, objGet pfs "overrides" = some ov → ∃ ofs, ov = JValue.obj ofs) :
    (overridesLookup (.obj fields) = .ok none)
    ∨ (∃ ofs, overridesLookup (.obj fields) = .ok (some (JValue.obj ofs))) := by
  unfold overridesLookup pyContains
  dsimp only
  cases hany : fields.any (fun kv => kv.1 == "pnpm") with
  | false => exact Or.inl rfl
  | true =>
    rcases objGet_isSome_of_any hany with ⟨p, hpv⟩
    rcases hp p hpv with ⟨pfs, rfl, hov⟩
    simp only [pySubscript, hpv]
    cases hany2 : pfs.any (fun kv => kv.1 == "overrides") with
    | false => exact Or.inl rfl
    | true =>
      rcases objGet_isSome_of_any hany2 with ⟨ov, hovv⟩
      rcases hov ov hovv with ⟨ofs, rfl⟩
      right
      exact ⟨ofs, by simp [pySubscript, hovv]⟩

/-- C5 fails as stated: a parsed document whose `dependencies` entry is
malformed (here a JSON array) makes the resolver raise
(`[].get(...)` → `AttributeError`), which no caller catches. -/
theorem C5_counterexample_malformed_entry_raises :
    extract_component_versions pkgName (.obj [("dependencies", .arr [])])
      = .error "AttributeError: no attribute get" := rfl

/-- C5 amended: the resolver returns absence rather than raising for an
absent manifest, an unparsable document, or a parsed document with
missing package entries — and more generally never raises on a document
whose present `dependencies`/`devDependencies`/`pnpm`/`overrides`
entries are objects — but a document binding one of those keys to a
non-object value makes it raise. -/
theorem C5_amended_no_raise_for_wellshaped :
    (∀ m : String, get_package_json_at_commit (.gitError m) = none)
    ∧ (∀ m : String, get_package_json_at_commit (.parseError m) = none)
    ∧ (∀ pkg : String, extract_component_versions pkg (.obj [])
        = .ok ⟨none, none, []⟩)
    ∧ (∀ (pkg : String) (fields : List (String × JValue)), WellShaped fields →
        ∃ v, extract_component_versions pkg (.obj fields) = .ok v) := by
  refine ⟨fun _ => rfl, fun _ => rfl, fun _ => rfl, ?_⟩
  intro pkg fields hws
  obtain ⟨hdep, hdev, hp⟩ := hws
  rcases depWithDev_ok pkg fields hdep hdev with ⟨dep, hdw⟩
  unfold extract_component_versions
  rw [hdw]
  rcases overridesLookup_ok fields hp with hov | ⟨ofs, hov⟩
  · rw [hov]
    exact ⟨⟨dep, none, []⟩, rfl⟩
  · rw [hov]
    exact ⟨⟨dep, objGet ofs pkg, transitiveEntries pkg ofs⟩, by simp [pyDictGet]⟩

/-- C5 witness: the amended theorem instantiated on a concrete
well-shaped manifest. -/
theorem C5_amended_witness :
    get_package_json_at_commit (.gitError "fatal") = none
    ∧ get_package_json_at_commit (.parseError "bad json") = none
    ∧ extract_component_versions pkgName (.obj []) = .ok ⟨none, none, []⟩
    ∧ ∃ v, extract_component_versions pkgName
        (.obj [("dependencies", .obj [])]) = .ok v := by
  refine ⟨C5_amended_no_raise_for_wellshaped.1 "fatal",
    C5_amended_no_raise_for_wellshaped.2.1 "bad json",
    C5_amended_no_raise_for_wellshaped.2.2.1 pkgName,
    C5_amended_no_raise_for_wellshaped.2.2.2 pkgName [("dependencies", .obj [])] ?_⟩
  refine ⟨?_, ?_, ?_⟩
  · intro v hv
    refine ⟨[], ?_⟩
    simpa [objGet] using hv.symm
  · intro v hv
    simp [objGet] at hv
  · intro p hp
    simp [objGet] at hp

/-- The `changed` test is false exactly when the snapshots are equal. -/
theorem constituentsChanged_false_iff {v last : Versions} :
    constituentsChanged v last = false ↔ v = last := by
  cases v
  cases last
  simp [constituentsChanged, Versions.mk.injEq, and_assoc]

/-- Commit metadata fixtures for the change-detector claims. -/
def cInfoA : CommitInfo := ⟨"a1a1a1a1a1a1", 100, "alice", "bump override"⟩

/-- Second commit metadata fixture. -/
def cInfoB : CommitInfo := ⟨"b2b2b2b2b2b2", 200, "bob", "move to dependency"⟩

/-- C4 fails as stated: the empty object `{}` is a parsed document, yet
`if not package_json: continue` skips it — no record is emitted although
the constituents and the effective version both differ from the previous
snapshot, and the baseline is not advanced to the newly resolved
(all-absent) values. -/
theorem C4_counterexample_falsy_parsed_document :
    trackLoop pkgName initialVersions
        [⟨cInfoA, .parsed (depManifest "1.0.0")⟩, ⟨cInfoB, .parsed (.obj [])⟩]
      = .ok ([mkChangeRecord cInfoA ⟨some (.str "1.0.0"), none, []⟩
                (some (.str "1.0.0")) none],
             ⟨some (.str "1.0.0"), none, []⟩)
    ∧ get_package_json_at_commit (.parsed (.obj [])) = some (.obj [])
    ∧ extract_component_versions pkgName (.obj []) = .ok initialVersions
    ∧ constituentsChanged initialVersions ⟨some (.str "1.0.0"), none, []⟩ = true
    ∧ effectiveVersion initialVersions ≠ effectiveVersion ⟨some (.str "1.0.0"), none, []⟩
    ∧ initialVersions ≠ (⟨some (.str "1.0.0"), none, []⟩ : Versions) := by
  exact ⟨rfl, rfl, rfl, by decide, by decide, by decide⟩

/-- C4 amended: at every commit whose manifest parses to a truthy
(non-empty) document, a record is emitted if and only if some
constituent differs from the previous snapshot AND the resolved
effective version differs from the previous effective version, and the
snapshot always advances to the newly resolved values; commits whose
manifest is absent, unparsable, or parses to a falsy document are
skipped entirely (no record, snapshot unchanged).  In particular a
cancel-out (override removed, dependency bumped to the same value)
advances the baseline and emits no record. -/
theorem C4_amended_emit_iff_constituents_and_effective :
    (∀ (pkg : String) (last : Versions) (c : CommitFetch) (rest : List CommitFetch)
      (pj : JValue) (v : Versions),
      get_package_json_at_commit c.fetch = some pj → pj.truthy = true →
      extract_component_versions pkg pj = .ok v →
      trackLoop pkg last (c :: rest)
        = (trackLoop pkg v rest).map (fun r =>
            (if constituentsChanged v last
                && (effectiveVersion v != effectiveVersion last)
             then mkChangeRecord c.info v (effectiveVersion v) (effectiveVersion last) :: r.1
             else r.1, r.2)))
    ∧ (∀ (pkg : String) (last : Versions) (c : CommitFetch) (rest : List CommitFetch),
        get_package_json_at_commit c.fetch = none →
        trackLoop pkg last (c :: rest) = trackLoop pkg last rest)
    ∧ (∀ (pkg : String) (last : Versions) (c : CommitFetch) (rest : List CommitFetch)
        (pj : JValue),
        get_package_json_at_commit c.fetch = some pj → pj.truthy = false →
        trackLoop pkg last (c :: rest) = trackLoop pkg last rest)
    ∧ (∀ v last : Versions, constituentsChanged v last = false ↔ v = last)
    ∧ trackLoop pkgName initialVersions
        [⟨cInfoA, .parsed (ovManifest "1.0.0")⟩, ⟨cInfoB, .parsed (depManifest "1.0.0")⟩]
      = .ok ([mkChangeRecord cInfoA ⟨none, some (.str "1.0.0"), []⟩
                (some (.str "1.0.0")) none],
             ⟨some (.str "1.0.0"), none, []⟩) := by
  refine ⟨?_, ?_, ?_, fun v last => constituentsChanged_false_iff, rfl⟩
  · intro pkg last c rest pj v hget htr hex
    simp only [trackLoop, hget]
    rw [htr]
    simp only [Bool.true_eq_false, if_false, hex]
    cases hrec : trackLoop pkg v rest with
    | error e => simp [Except.map]
    | ok pr =>
      cases hcond : (constituentsChanged v last
          && (effectiveVersion v != effectiveVersion last)) <;>
        simp [Except.map, hcond]
  · intro pkg last c rest hget
    simp only [trackLoop, hget]
  · intro pkg last c rest pj hget htr
    simp only [trackLoop, hget]
    rw [htr]
    simp

/-- C4 witness: the step characterization instantiated at a concrete
cancel-out commit. -/
theorem C4_amended_witness :
    trackLoop pkgName ⟨none, some (.str "1.0.0"), []⟩
        [⟨cInfoB, .parsed (depManifest "1.0.0")⟩]
      = (trackLoop pkgName ⟨some (.str "1.0.0"), none, []⟩ []).map (fun r =>
          (if constituentsChanged ⟨some (.str "1.0.0"), none, []⟩
              ⟨none, some (.str "1.0.0"), []⟩
              && (effectiveVersion ⟨some (.str "1.0.0"), none, []⟩
                  != effectiveVersion ⟨none, some (.str "1.0.0"), []⟩)
           then mkChangeRecord cInfoB ⟨some (.str "1.0.0"), none, []⟩
              (effectiveVersion ⟨some (.str "1.0.0"), none, []⟩)
              (effectiveVersion ⟨none, some (.str "1.0.0"), []⟩) :: r.1
           else r.1, r.2))
    ∧ trackLoop pkgName ⟨none, some (.str "1.0.0"), []⟩
        [⟨cInfoA, .gitError "boom"⟩, ⟨cInfoB, .parsed (depManifest "1.0.0")⟩]
      = trackLoop pkgName ⟨none, some (.str "1.0.0"), []⟩
          [⟨cInfoB, .parsed (depManifest "1.0.0")⟩] := by
  constructor
  · exact C4_amended_emit_iff_constituents_and_effective.1 pkgName
      ⟨none, some (.str "1.0.0"), []⟩ ⟨cInfoB, .parsed (depManifest "1.0.0")⟩ []
      (depManifest "1.0.0") ⟨some (.str "1.0.0"), none, []⟩ rfl (by decide) rfl
  · exact C4_amended_emit_iff_constituents_and_effective.2.1 pkgName
      ⟨none, some (.str "1.0.0"), []⟩ ⟨cInfoA, .gitError "boom"⟩
      [⟨cInfoB, .parsed (depManifest "1.0.0")⟩] rfl

/-- The change records form a chain: each record's previous effective
version is the given one, and the rest chain from its new effective
version. -/
def chainedFrom (prev : Option JValue) : List ChangeRecord → Prop
  | [] => True
  | r :: rs => r.previous_effective = prev ∧ chainedFrom r.effective_version rs

/-- The records produced from any snapshot chain from that snapshot's
effective version. -/
theorem trackLoop_chained (pkg : String) :
    ∀ (commits : List CommitFetch) (last : Versions) (recs : List ChangeRecord)
      (fin : Versions),
      trackLoop pkg last commits = .ok (recs, fin) →
      chainedFrom (effectiveVersion last) recs
  | [], last, recs, fin, h => by
    simp only [trackLoop] at h
    cases h
    trivial
  | c :: rest, last, recs, fin, h => by
    simp only [trackLoop] at h
    cases hget : get_package_json_at_commit c.fetch with
    | none =>
      rw [hget] at h
      exact trackLoop_chained pkg rest last recs fin h
    | some pj =>
      rw [hget] at h
      dsimp only at h
      by_cases htr : pj.truthy = false
      · rw [if_pos htr] at h
        exact trackLoop_chained pkg rest last recs fin h
      · rw [if_neg htr] at h
        cases hex : extract_component_versions pkg pj with
        | error e => rw [hex] at h; cases h
        | ok v =>
          rw [hex] at h
          dsimp only at h
          cases hrec : trackLoop pkg v rest with
          | error e => rw [hrec] at h; cases h
          | ok pr =>
            obtain ⟨recs', fin'⟩ := pr
            rw [hrec] at h
            dsimp only at h
            have ih := trackLoop_chained pkg rest v recs' fin' hrec
            by_cases hcond : (constituentsChanged v last
                && (effectiveVersion v != effectiveVersion last)) = true
            · rw [if_pos hcond] at h
              cases h
              exact ⟨rfl, ih⟩
            · rw [if_neg hcond] at h
              cases h
              have heff : effectiveVersion v = effectiveVersion last := by
                by_cases hc : constituentsChanged v last = true
                · have hb : (effectiveVersion v != effectiveVersion last) = false := by
                    cases hbb : (effectiveVersion v != effectiveVersion last) with
                    | false => rfl
                    | true => exact absurd (by rw [Bool.and_eq_true]; exact ⟨hc, hbb⟩) hcond
                  simpa [bne] using hb
                · have hc' : constituentsChanged v last = false := by
                    cases h' : constituentsChanged v last with
                    | true => exact absurd h' hc
                    | false => rfl
                  rw [constituentsChanged_false_iff.mp hc']
              rwa [← heff]

/-- Reading a chain at successive indices. -/
theorem chainedFrom_get :
    ∀ (recs : List ChangeRecord) (prev : Option JValue), chainedFrom prev recs →
      (∀ h0 : 0 < recs.length, (recs.get ⟨0, h0⟩).previous_effective = prev)
      ∧ ∀ (i : Nat) (hi : i + 1 < recs.length),
          (recs.get ⟨i + 1, hi⟩).previous_effective
            = (recs.get ⟨i, Nat.lt_of_succ_lt hi⟩).effective_version
  | [], _, _ => ⟨fun h0 => absurd h0 (by simp), fun i hi => absurd hi (by simp)⟩
  | r :: rs, prev, h => by
    obtain ⟨h1, h2⟩ := h
    constructor
    · intro _
      exact h1
    · intro i hi
      cases i with
      | zero =>
        have h0 : 0 < rs.length := by simpa using hi
        exact (chainedFrom_get rs r.effective_version h2).1 h0
      | succ j =>
        have hj : j + 1 < rs.length := by simpa using hi
        exact (chainedFrom_get rs r.effective_version h2).2 j hj

/-- C9: in every change-record sequence the detector produces, each
record's `previous_effective` equals the immediately preceding record's
`effective_version`, and the first record's `previous_effective` is the
initial absent state. -/
theorem C9_previous_effective_links :
    ∀ (pkg : String) (commits : List CommitFetch) (recs : List ChangeRecord),
      track_version_changes pkg commits = .ok recs →
      (∀ h0 : 0 < recs.length, (recs.get ⟨0, h0⟩).previous_effective = none)
      ∧ ∀ (i : Nat) (hi : i + 1 < recs.length),
          (recs.get ⟨i + 1, hi⟩).previous_effective
            = (recs.get ⟨i, Nat.lt_of_succ_lt hi⟩).effective_version := by
  intro pkg commits recs h
  unfold track_version_changes at h
  cases htl : trackLoop pkg initialVersions commits with
  | error e => rw [htl] at h; cases h
  | ok pr =>
    obtain ⟨recs', fin⟩ := pr
    rw [htl] at h
    dsimp only at h
    cases h
    have hchain := trackLoop_chained pkg commits initialVersions _ _ htl
    have h0 : effectiveVersion initialVersions = none := rfl
    rw [h0] at hchain
    exact chainedFrom_get _ none hchain

/-- Commits for the C9 witness: two successive dependency bumps. -/
def c9commits : List CommitFetch :=
  [⟨cInfoA, .parsed (depManifest "1.0.0")⟩, ⟨cInfoB, .parsed (depManifest "2.0.0")⟩]

/-- The change records produced for `c9commits`. -/
def c9recs : List ChangeRecord :=
  [mkChangeRecord cInfoA ⟨some (.str "1.0.0"), none, []⟩ (some (.str "1.0.0")) none,
   mkChangeRecord cInfoB ⟨some (.str "2.0.0"), none, []⟩ (some (.str "2.0.0"))
     (some (.str "1.0.0"))]

/-- C9 witness: the invariant instantiated on a concrete two-record
run. -/
theorem C9_previous_effective_links_witness :
    track_version_changes pkgName c9commits = .ok c9recs
    ∧ (c9recs.get ⟨0, by decide⟩).previous_effective = none
    ∧ (c9recs.get ⟨1, by decide⟩).previous_effective
        = (c9recs.get ⟨0, by decide⟩).effective_version :=
  ⟨rfl,
   (C9_previous_effective_links pkgName c9commits c9recs rfl).1 (by decide),
   (C9_previous_effective_links pkgName c9commits c9recs rfl).2 0 (by decide)⟩

/-- A commit whose manifest fetch produced a truthy parsed document
(the commits `if not package_json: continue` keeps). -/
def parsedTruthy (c : CommitFetch) : Bool :=
  match get_package_json_at_commit c.fetch with
  | none => false
  | some pj => pj.truthy

/-- Skipping is filtering: the change-detection loop gives the same
result on the full commit list as on the sublist of commits whose
manifest fetch parsed to a truthy document. -/
theorem trackLoop_skips_eq_filter (pkg : String) :
    ∀ (commits : List CommitFetch) (last : Versions),
      trackLoop pkg last commits = trackLoop pkg last (commits.filter parsedTruthy)
  | [], _ => rfl
  | c :: rest, last => by
    cases hget : get_package_json_at_commit c.fetch with
    | none =>
      have hp : parsedTruthy c = false := by simp [parsedTruthy, hget]
      rw [List.filter_cons_of_neg (by simp [hp])]
      rw [show trackLoop pkg last (c :: rest) = trackLoop pkg last rest by
        simp only [trackLoop, hget]]
      exact trackLoop_skips_eq_filter pkg rest last
    | some pj =>
      cases htr : pj.truthy with
      | false =>
        have hp : parsedTruthy c = false := by simp [parsedTruthy, hget, htr]
        rw [List.filter_cons_of_neg (by simp [hp])]
        rw [show trackLoop pkg last (c :: rest) = trackLoop pkg last rest by
          simp only [trackLoop, hget]; rw [htr]; simp]
        exact trackLoop_skips_eq_filter pkg rest last
      | true =>
        have hp : parsedTruthy c = true := by simp [parsedTruthy, hget, htr]
        rw [List.filter_cons_of_pos (by simp [hp])]
        simp only [trackLoop, hget]
        rw [htr]
        simp only [Bool.true_eq_false, if_false]
        cases hx : extract_component_versions pkg pj with
        | error e => rfl
        | ok v =>
          dsimp only
          rw [trackLoop_skips_eq_filter pkg rest v]

/-- The per-repository processor records the repository name in every
successful result. -/
theorem track_repo_name {pkg : String} {r : RepoInput} {res : RepoResult}
    (h : track_repo_version_changes pkg r = .ok res) : res.repository = r.name := by
  unfold track_repo_version_changes at h
  split at h
  · cases h
    rfl
  · split at h
    · cases h
    · split at h
      · cases h
        rfl
      · split at h
        · cases h
        · cases h
          rfl

/-- Lookup succeeds exactly when some entry carries the key. -/
theorem dictGetS_isSome_iff {α : Type} {m : List (String × α)} {k : String} :
    (∃ res, dictGetS m k = some res) ↔ ∃ kv ∈ m, kv.1 = k := by
  unfold dictGetS
  constructor
  · rintro ⟨res, h⟩
    rcases Option.map_eq_some'.mp h with ⟨kv, hf, _⟩
    exact ⟨kv, List.mem_of_find?_eq_some hf, by simpa using List.find?_some hf⟩
  · rintro ⟨kv, hm, hk⟩
    have hs : (m.find? (fun kv => kv.1 == k)).isSome :=
      List.find?_isSome.mpr ⟨kv, hm, by simpa using hk⟩
    rcases Option.isSome_iff_exists.mp hs with ⟨q, hq⟩
    exact ⟨q.2, by rw [hq]; rfl⟩

/-- The key just written is present after a dict assignment. -/
theorem pyDictSet_key_self {α : Type} (m : List (String × α)) (k : String) (v : α) :
    ∃ kv ∈ pyDictSet m k v, kv.1 = k := by
  unfold pyDictSet
  split
  · next hany =>
    rcases List.any_eq_true.mp hany with ⟨q, hqm, hq⟩
    refine ⟨(k, v), List.mem_map.mpr ⟨q, hqm, ?_⟩, rfl⟩
    rw [if_pos hq]
  · exact ⟨(k, v), List.mem_append.mpr (Or.inr (by simp)), rfl⟩

/-- Keys present before a dict assignment are still present after it. -/
theorem pyDictSet_key_preserved {α : Type} {m : List (String × α)} {k' : String}
    (h : ∃ kv ∈ m, kv.1 = k') (k : String) (v : α) :
    ∃ kv ∈ pyDictSet m k v, kv.1 = k' := by
  rcases h with ⟨kv, hm, hk⟩
  unfold pyDictSet
  split
  · by_cases hq : kv.1 == k
    · refine ⟨(k, v), List.mem_map.mpr ⟨kv, hm, by rw [if_pos hq]⟩, ?_⟩
      have : kv.1 = k := by simpa using hq
      rw [← this, hk]
    · exact ⟨kv, List.mem_map.mpr ⟨kv, hm, by rw [if_neg hq]⟩, hk⟩
  · exact ⟨kv, List.mem_append.mpr (Or.inl hm), hk⟩

/-- When every repository's processing returns a result, the merge loop
completes and its mapping covers the accumulator's keys and every
repository name. -/
theorem processList_ok (pkg : String) :
    ∀ (repos : List RepoInput) (acc : List (String × RepoResult)),
      (∀ r ∈ repos, ∃ res, track_repo_version_changes pkg r = .ok res) →
      ∃ m, processList pkg acc repos = .ok m
        ∧ ∀ k : String,
            ((∃ kv ∈ acc, kv.1 = k) ∨ ∃ r ∈ repos, r.name = k) →
            ∃ kv ∈ m, kv.1 = k
  | [], acc, _ => by
    refine ⟨acc, rfl, ?_⟩
    intro k hk
    rcases hk with hk | ⟨r, hr, _⟩
    · exact hk
    · cases hr
  | r :: rest, acc, hall => by
    rcases hall r (List.mem_cons_self r rest) with ⟨res, hres⟩
    have hname : res.repository = r.name := track_repo_name hres
    rcases processList_ok pkg rest (pyDictSet acc res.repository res)
        (fun r' hr' => hall r' (List.mem_cons_of_mem r hr')) with ⟨m, hm, hcov⟩
    refine ⟨m, ?_, ?_⟩
    · simp only [processList, hres]
      exact hm
    · intro k hk
      rcases hk with hk | ⟨r', hr', hk⟩
      · exact hcov k (Or.inl (pyDictSet_key_preserved hk res.repository res))
      · rcases List.mem_cons.mp hr' with he | hr'
        · subst he
          refine hcov k (Or.inl ?_)
          rw [← hk, ← hname]
          exact pyDictSet_key_self acc res.repository res
        · exact hcov k (Or.inr ⟨r', hr', hk⟩)

/-- C8: a failing commit-history query yields an error result with an
empty change list; commits whose manifest retrieval or parsing fails are
skipped (processing equals processing the parsed-truthy sublist); and
when every repository's processing returns a result — which a failing
history query does — the multi-repository merge completes with every
repository present in the result mapping. -/
theorem C8_per_repo_failures_degrade :
    (∀ (pkg name e : String) (cur : Option JValue),
      track_repo_version_changes pkg ⟨name, .error e, cur⟩
        = .ok ⟨name, [], 0, none, some e⟩)
    ∧ (∀ (pkg : String) (commits : List CommitFetch) (last : Versions),
        trackLoop pkg last commits = trackLoop pkg last (commits.filter parsedTruthy))
    ∧ (∀ (pkg : String) (repos : List RepoInput),
        (∀ r ∈ repos, ∃ res, track_repo_version_changes pkg r = .ok res) →
        ∃ m, process_repositories pkg repos = .ok m
          ∧ ∀ r ∈ repos, ∃ res, dictGetS m r.name = some res) := by
  refine ⟨fun _ _ _ _ => rfl, fun pkg commits last => trackLoop_skips_eq_filter pkg commits last, ?_⟩
  intro pkg repos hall
  rcases processList_ok pkg repos [] hall with ⟨m, hm, hcov⟩
  refine ⟨m, hm, ?_⟩
  intro r hr
  exact dictGetS_isSome_iff.mpr (hcov r.name (Or.inr ⟨r, hr, rfl⟩))

/-- C8 witness: a repository whose history query fails is recorded with
an error and an empty change list while the other repository is still
processed. -/
theorem C8_per_repo_failures_degrade_witness :
    track_repo_version_changes pkgName ⟨"bad", .error "boom", none⟩
      = .ok ⟨"bad", [], 0, none, some "boom"⟩
    ∧ trackLoop pkgName initialVersions [⟨cInfoA, .gitError "no repo"⟩]
        = trackLoop pkgName initialVersions
            ([⟨cInfoA, .gitError "no repo"⟩].filter parsedTruthy)
    ∧ ∃ m, process_repositories pkgName
          [⟨"bad", .error "boom", none⟩, ⟨"good", .ok [], none⟩] = .ok m
        ∧ ∀ r ∈ [(⟨"bad", .error "boom", none⟩ : RepoInput), ⟨"good", .ok [], none⟩],
            ∃ res, dictGetS m r.name = some res := by
  refine ⟨C8_per_repo_failures_degrade.1 pkgName "bad" "boom" none,
    C8_per_repo_failures_degrade.2.1 pkgName [⟨cInfoA, .gitError "no repo"⟩] initialVersions,
    C8_per_repo_failures_degrade.2.2 pkgName
      [⟨"bad", .error "boom", none⟩, ⟨"good", .ok [], none⟩] ?_⟩
  intro r hr
  rcases List.mem_cons.mp hr with he | hr
  · exact ⟨⟨"bad", [], 0, none, some "boom"⟩, by rw [he]; rfl⟩
  · rcases List.mem_cons.mp hr with he | hr
    · exact ⟨⟨"good", [], 0, none, none⟩, by rw [he]; rfl⟩
    · cases hr

/-- Repository fixture: basename `app`, one dependency commit. -/
def rApp1 : RepoInput := ⟨"app", .ok [⟨cInfoA, .parsed (depManifest "1.0.0")⟩], none⟩

/-- Repository fixture: the same basename `app` at a different path,
with an empty history. -/
def rApp2 : RepoInput := ⟨"app", .ok [], none⟩

/-- C7 fails as stated: two distinct repositories can share a basename,
in which case two workers write the same `result["repository"]` key and
the retained bundle depends on the completion order — a sequential run
and a possible concurrent completion order disagree on the merged
mapping. -/
theorem C7_counterexample_duplicate_basenames :
    List.Perm [rApp2, rApp1] [rApp1, rApp2]
    ∧ rApp1 ≠ rApp2
    ∧ track_repo_version_changes pkgName rApp1
        = .ok ⟨"app", [mkChangeRecord cInfoA ⟨some (.str "1.0.0"), none, []⟩
            (some (.str "1.0.0")) none], 1, none, none⟩
    ∧ track_repo_version_changes pkgName rApp2 = .ok ⟨"app", [], 0, none, none⟩
    ∧ (process_repositories pkgName [rApp1, rApp2]).map
        (fun m => (dictGetS m "app").map (fun res => res.total_changes)) = .ok (some 0)
    ∧ (processList pkgName [] [rApp2, rApp1]).map
        (fun m => (dictGetS m "app").map (fun res => res.total_changes)) = .ok (some 1)
    ∧ (0 : Nat) ≠ 1 := by
  exact ⟨List.Perm.swap rApp1 rApp2 [], by decide, rfl, rfl, rfl, rfl, by decide⟩

/-- When every repository's processing result is given by `f`, the merge
loop is the fold of dict assignments of those results. -/
theorem processList_assigns (pkg : String) (f : RepoInput → RepoResult) :
    ∀ (repos : List RepoInput) (acc : List (String × RepoResult)),
      (∀ r ∈ repos, track_repo_version_changes pkg r = .ok (f r)) →
      processList pkg acc repos
        = .ok (repos.foldl (fun m r => pyDictSet m (f r).repository (f r)) acc)
  | [], _, _ => rfl
  | r :: rest, acc, hall => by
    simp only [processList, hall r (List.mem_cons_self r rest), List.foldl_cons]
    exact processList_assigns pkg f rest _ (fun r' hr' => hall r' (List.mem_cons_of_mem r hr'))

/-- Inserting a fresh key appends. -/
theorem pyDictSet_fresh {α : Type} {m : List (String × α)} {k : String}
    (h : ∀ q ∈ m, q.1 ≠ k) (v : α) : pyDictSet m k v = m ++ [(k, v)] := by
  unfold pyDictSet
  rw [if_neg]
  intro hany
  rcases List.any_eq_true.mp hany with ⟨q, hqm, hq⟩
  exact h q hqm (by simpa using hq)

/-- Folding dict assignments of pairwise-fresh keys appends them all. -/
theorem foldl_pyDictSet_fresh {α : Type} :
    ∀ (ps : List (String × α)) (acc : List (String × α)),
      (ps.map (·.1)).Nodup →
      (∀ p ∈ ps, ∀ q ∈ acc, q.1 ≠ p.1) →
      ps.foldl (fun m p => pyDictSet m p.1 p.2) acc = acc ++ ps
  | [], acc, _, _ => by simp
  | p :: rest, acc, hnd, hdis => by
    simp only [List.foldl_cons]
    rw [pyDictSet_fresh (fun q hq => hdis p (List.mem_cons_self p rest) q hq) p.2]
    have hcons : (p.1 :: rest.map (fun x => x.1)).Nodup := by simpa using hnd
    have hne : p.1 ∉ rest.map (fun x => x.1) := (List.nodup_cons.mp hcons).1
    have htl : (rest.map (fun x => x.1)).Nodup := (List.nodup_cons.mp hcons).2
    rw [foldl_pyDictSet_fresh rest (acc ++ [p]) htl ?_]
    · simp
    · intro p' hp' q hq
      rcases List.mem_append.mp hq with hq | hq
      · exact hdis p' (List.mem_cons_of_mem p hp') q hq
      · have hqp : q = p := by simpa using hq
        rw [hqp]
        intro he
        exact hne (List.mem_map.mpr ⟨p', hp', he.symm⟩)

/-- With pairwise-distinct keys, dictionary lookup is invariant under
permutation of the entry list. -/
theorem dictGetS_eq_of_perm {α : Type} {l l' : List (String × α)}
    (hperm : l.Perm l') (hnodup : (l.map (·.1)).Nodup) (k : String) :
    dictGetS l k = dictGetS l' k := by
  unfold dictGetS
  cases hf : l.find? (fun kv => kv.1 == k) with
  | none =>
    have hnone : ∀ kv ∈ l', ¬(kv.1 == k) = true := by
      intro kv hm
      exact List.find?_eq_none.mp hf kv (hperm.mem_iff.mpr hm)
    rw [List.find?_eq_none.mpr hnone]
  | some kv =>
    have hkvl : kv ∈ l := List.mem_of_find?_eq_some hf
    have hkvk := List.find?_some hf
    have hkvl' : kv ∈ l' := hperm.mem_iff.mp hkvl
    cases hf' : l'.find? (fun kv => kv.1 == k) with
    | none => exact absurd hkvk (List.find?_eq_none.mp hf' kv hkvl')
    | some kv' =>
      have hkv'l : kv' ∈ l := hperm.mem_iff.mpr (List.mem_of_find?_eq_some hf')
      have hkv'k := List.find?_some hf'
      have heq : kv' = kv := by
        have h1 : kv.1 = k := by simpa using hkvk
        have h2 : kv'.1 = k := by simpa using hkv'k
        exact List.inj_on_of_nodup_map hnodup hkv'l hkvl (by rw [h1, h2])
      rw [heq]

/-- C7 amended: when the repository basenames are pairwise distinct (and
each repository's processing returns a result), merging the
per-repository results in any completion order — the model of the
bounded-worker concurrent mode — produces the same mapping, key for key,
as the sequential order; without distinctness two workers write the same
key and the outcome is order-dependent. -/
theorem C7_amended_merge_order_invariant :
    ∀ (pkg : String) (repos order : List RepoInput) (f : RepoInput → RepoResult),
      (∀ r ∈ repos, track_repo_version_changes pkg r = .ok (f r)) →
      order.Perm repos →
      (repos.map (fun r => r.name)).Nodup →
      ∃ mseq mcon,
        process_repositories pkg repos = .ok mseq
        ∧ processList pkg [] order = .ok mcon
        ∧ ∀ k, dictGetS mcon k = dictGetS mseq k := by
  intro pkg repos order f hall hperm hnodup
  have hallo : ∀ r ∈ order, track_repo_version_changes pkg r = .ok (f r) :=
    fun r hr => hall r (hperm.mem_iff.mp hr)
  have hnames : ∀ (l : List RepoInput), (∀ r ∈ l, track_repo_version_changes pkg r = .ok (f r)) →
      (l.map (fun r => ((f r).repository, f r))).map (fun p => p.1) = l.map (fun r => r.name) := by
    intro l hl
    rw [List.map_map]
    exact List.map_congr_left (fun r hr => track_repo_name (hl r hr))
  have hseqfold : repos.foldl (fun m r => pyDictSet m (f r).repository (f r)) []
      = repos.map (fun r => ((f r).repository, f r)) := by
    rw [← List.foldl_map (fun r => ((f r).repository, f r))
      (fun m p => pyDictSet m p.1 p.2) repos []]
    rw [foldl_pyDictSet_fresh _ [] (by rw [hnames repos hall]; exact hnodup)
      (fun p _ q hq => absurd hq (List.not_mem_nil q))]
    simp
  have hnodup' : (order.map (fun r => r.name)).Nodup :=
    ((hperm.map (fun r => r.name)).nodup_iff).mpr hnodup
  have hconfold : order.foldl (fun m r => pyDictSet m (f r).repository (f r)) []
      = order.map (fun r => ((f r).repository, f r)) := by
    rw [← List.foldl_map (fun r => ((f r).repository, f r))
      (fun m p => pyDictSet m p.1 p.2) order []]
    rw [foldl_pyDictSet_fresh _ [] (by rw [hnames order hallo]; exact hnodup')
      (fun p _ q hq => absurd hq (List.not_mem_nil q))]
    simp
  refine ⟨repos.map (fun r => ((f r).repository, f r)),
    order.map (fun r => ((f r).repository, f r)), ?_, ?_, ?_⟩
  · rw [show process_repositories pkg repos = processList pkg [] repos from rfl,
      processList_assigns pkg f repos [] hall, hseqfold]
  · rw [processList_assigns pkg f order [] hallo, hconfold]
  · intro k
    exact dictGetS_eq_of_perm (hperm.map (fun r => ((f r).repository, f r)))
      (by rw [hnames order hallo]; exact hnodup') k

/-- Distinct-basename repository fixtures for the C7 witness. -/
def rAlpha : RepoInput := ⟨"alpha", .ok [], none⟩

/-- Second distinct-basename repository fixture. -/
def rBeta : RepoInput := ⟨"beta", .ok [⟨cInfoA, .parsed (depManifest "1.0.0")⟩], none⟩

/-- C7 witness: the amended invariance instantiated on two
distinct-basename repositories with swapped completion order. -/
theorem C7_amended_merge_order_invariant_witness :
    ∃ mseq mcon,
      process_repositories pkgName [rAlpha, rBeta] = .ok mseq
      ∧ processList pkgName [] [rBeta, rAlpha] = .ok mcon
      ∧ ∀ k, dictGetS mcon k = dictGetS mseq k := by
  refine C7_amended_merge_order_invariant pkgName [rAlpha, rBeta] [rBeta, rAlpha]
    (fun r => if r.name = "alpha" then ⟨"alpha", [], 0, none, none⟩
      else ⟨"beta", [mkChangeRecord cInfoA ⟨some (.str "1.0.0"), none, []⟩
        (some (.str "1.0.0")) none], 1, none, none⟩) ?_ ?_ ?_
  · intro r hr
    rcases List.mem_cons.mp hr with he | hr
    · rw [he]; rfl
    · rcases List.mem_cons.mp hr with he | hr
      · rw [he]; rfl
      · cases hr
  · exact List.Perm.swap rAlpha rBeta []
  · decide

end WdsMetrics
